import Mathlib

/-!
Shallow embedding of the core of the concurrency_go key-value store:
the command parser (internal/database/compute/compute.go), the in-memory
engine (internal/database/storage/in_memory_engine.go), the storage facade
(internal/database/storage/storage.go) and the dispatcher
(internal/database/database.go).

Go byte slices are modelled as lists of naturals; byte-for-byte equality is
list equality.  Fallible Go functions returning (T, error) are modelled with
Except; a Go context is modelled by the value its Err() method returns, and
the mutable engine map is threaded explicitly through every operation.
-/

namespace ConcurrencyGo

/-- Bytes models a Go byte slice ([]byte) as a list of naturals. -/
abbrev Bytes := List Nat

/-- Models the ASCII whitespace table used by Go bytes.Fields
(tab, newline, vertical tab, form feed, carriage return, space). -/
def isSpace (b : Nat) : Bool :=
  b == 9 || b == 10 || b == 11 || b == 12 || b == 13 || b == 32

/-- Models Go bytes.ToUpper on one byte, on the ASCII fast path: lower-case
ASCII letters map to upper case, every other byte is unchanged.  Every
command comparison in compute.go is against a three-letter ASCII constant. -/
def toUpperByte (b : Nat) : Nat :=
  if 97 ≤ b ∧ b ≤ 122 then b - 32 else b

/-- Models Go bytes.ToUpper on the ASCII fast path. -/
def toUpper (s : Bytes) : Bytes := s.map toUpperByte

/-- Recursive worker for fields: acc holds the bytes of the current field in
reverse; a whitespace byte closes the current field, any other byte extends
it. -/
def fieldsAux : Bytes → Bytes → List Bytes
  | [], acc => if acc = [] then [] else [acc.reverse]
  | b :: rest, acc =>
    if isSpace b then
      if acc = [] then fieldsAux rest []
      else acc.reverse :: fieldsAux rest []
    else
      fieldsAux rest (b :: acc)

/-- Models Go bytes.Fields: split the input around maximal runs of
whitespace; no empty fields are produced. -/
def fields (s : Bytes) : List Bytes := fieldsAux s []

/-- Query models the compute.Query tagged union from
internal/database/compute/query.go: SetQuery, GetQuery, DelQuery. -/
inductive Query
  | set (key value : Bytes)
  | get (key : Bytes)
  | del (key : Bytes)
  deriving DecidableEq

/-- ParseError models the parse errors of compute.go:
ErrInvalidLen (with the configured maximum and the actual length),
ErrEmptyQuery, ErrUnknownCommand (with the offending first field) and
ErrInvalidArguments (with the expected and actual field counts, as in the
Go message "expects N arguments, got M"). -/
inductive ParseError
  | invalidLen (maxLen got : Nat)
  | emptyQuery
  | unknownCommand (cmd : Bytes)
  | invalidArguments (expected got : Nat)
  deriving DecidableEq

/-- Compute models the compute.Compute struct: it carries the configured
maximum raw command length.  In Go maxLen is an int; it is a configured
length, modelled as a natural. -/
structure Compute where
  maxLen : Nat

/-- Modelled from the spec: the constant upperCommandSet is referenced by
compute.go but its defining file is not among the provided sources; per the
spec the upper-cased first field is matched against the command name SET. -/
def upperCommandSet : Bytes := [83, 69, 84]

/-- Modelled from the spec: the constant upperCommandGet is referenced by
compute.go but its defining file is not among the provided sources; per the
spec the upper-cased first field is matched against the command name GET. -/
def upperCommandGet : Bytes := [71, 69, 84]

/-- Modelled from the spec: the constant upperCommandDel is referenced by
compute.go but its defining file is not among the provided sources; per the
spec the upper-cased first field is matched against the command name DEL. -/
def upperCommandDel : Bytes := [68, 69, 76]

/-- Models Compute.parseFields: reject empty input, then input longer than
the configured maximum, then split into whitespace-separated fields and
reject an empty field list (all-whitespace input). -/
def Compute.parseFields (c : Compute) (query : Bytes) :
    Except ParseError (List Bytes) :=
  if query.length = 0 then
    Except.error ParseError.emptyQuery
  else if c.maxLen < query.length then
    Except.error (ParseError.invalidLen c.maxLen query.length)
  else if (fields query).length = 0 then
    Except.error ParseError.emptyQuery
  else
    Except.ok (fields query)

/-- Models Compute.Parse: split into fields, upper-case the first field,
match it against the SET/GET/DEL constants, enforce the per-command field
count (3 for SET, 2 for GET and DEL), and build the query with key (and
value) taken verbatim from the fields. -/
def Compute.Parse (c : Compute) (query : Bytes) : Except ParseError Query :=
  match c.parseFields query with
  | Except.error e => Except.error e
  | Except.ok fs =>
    let upperCommand := toUpper (fs.headD [])
    if upperCommand = upperCommandSet then
      if fs.length ≠ 3 then
        Except.error (ParseError.invalidArguments 3 fs.length)
      else
        Except.ok (Query.set (fs.getD 1 []) (fs.getD 2 []))
    else if upperCommand = upperCommandGet then
      if fs.length ≠ 2 then
        Except.error (ParseError.invalidArguments 2 fs.length)
      else
        Except.ok (Query.get (fs.getD 1 []))
    else if upperCommand = upperCommandDel then
      if fs.length ≠ 2 then
        Except.error (ParseError.invalidArguments 2 fs.length)
      else
        Except.ok (Query.del (fs.getD 1 []))
    else
      Except.error (ParseError.unknownCommand (fs.headD []))

/-- InMemoryEngine models the inMemoryEngine struct: its Go map
map[string][]byte is modelled as a function from keys to optional values
(none = key absent).  The mutex only serialises concurrent access and has no
sequential content. -/
structure InMemoryEngine where
  m : Bytes → Option Bytes

/-- Models newInMemoryEngine: an empty map (the Go initial size is a
capacity hint with no observable content). -/
def newInMemoryEngine : InMemoryEngine := ⟨fun _ => none⟩

/-- Models inMemoryEngine.Set: unconditional upsert of the key. -/
def InMemoryEngine.Set (e : InMemoryEngine) (key value : Bytes) :
    InMemoryEngine :=
  ⟨fun k => if k = key then some value else e.m k⟩

/-- Models inMemoryEngine.Get: the Go (value, ok) pair is the Option result
(some v encodes (v, true), none encodes (nil, false)); the engine state is
returned unchanged, since the Go method only reads the map. -/
def InMemoryEngine.Get (e : InMemoryEngine) (key : Bytes) :
    Option Bytes × InMemoryEngine :=
  (e.m key, e)

/-- Models inMemoryEngine.Del: unconditional delete of the key. -/
def InMemoryEngine.Del (e : InMemoryEngine) (key : Bytes) : InMemoryEngine :=
  ⟨fun k => if k = key then none else e.m k⟩

/-- CtxError models the non-nil results of the Go context Err() method:
context.Canceled and context.DeadlineExceeded. -/
inductive CtxError
  | canceled
  | deadlineExceeded
  deriving DecidableEq

/-- Context models a Go context by the value its Err() method returns:
none for a live context, some for a cancelled or expired one. -/
structure Context where
  err : Option CtxError

/-- StorageError models the errors the Storage facade can return: the
context error propagated from the cancellation check, and the dedicated
storage.ErrNotFound value. -/
inductive StorageError
  | ctxErr (e : CtxError)
  | notFound
  deriving DecidableEq

/-- Models Storage.Set: check cancellation first, returning the context
error without touching the engine; otherwise delegate to Engine.Set and
return nil. -/
def Storage.Set (ctx : Context) (e : InMemoryEngine) (key value : Bytes) :
    Except StorageError Unit × InMemoryEngine :=
  match ctx.err with
  | some ce => (Except.error (StorageError.ctxErr ce), e)
  | none => (Except.ok (), e.Set key value)

/-- Models Storage.Get: check cancellation first; then if the engine reports
the key absent return ErrNotFound with a nil value, otherwise the stored
value and nil error. -/
def Storage.Get (ctx : Context) (e : InMemoryEngine) (key : Bytes) :
    Except StorageError Bytes × InMemoryEngine :=
  match ctx.err with
  | some ce => (Except.error (StorageError.ctxErr ce), e)
  | none =>
    match e.Get key with
    | (none, e2) => (Except.error StorageError.notFound, e2)
    | (some v, e2) => (Except.ok v, e2)

/-- Models Storage.Del: check cancellation first; otherwise delegate to
Engine.Del and return nil (absence of the key is never an error). -/
def Storage.Del (ctx : Context) (e : InMemoryEngine) (key : Bytes) :
    Except StorageError Unit × InMemoryEngine :=
  match ctx.err with
  | some ce => (Except.error (StorageError.ctxErr ce), e)
  | none => (Except.ok (), e.Del key)

/-- DBError models the errors carried by an ExecResult from database.go:
the pre-flight context error, and the parse / set query / get query /
del query wrapping contexts added by fmt.Errorf. -/
inductive DBError
  | ctx (e : CtxError)
  | parseQuery (e : ParseError)
  | setQuery (e : StorageError)
  | getQuery (e : StorageError)
  | delQuery (e : StorageError)
  deriving DecidableEq

/-- ExecStatus models database.ExecStatus with its zero value
StatusUndefined and the five returned statuses. -/
inductive ExecStatus
  | undefined
  | okNoData
  | ok
  | notFound
  | unsupported
  | err
  deriving DecidableEq

/-- ExecResult models database.ExecResult; the Go zero values of the Err and
Data fields (nil) are the defaults none. -/
structure ExecResult where
  status : ExecStatus
  err : Option DBError := none
  data : Option Bytes := none
  deriving DecidableEq

/-- Models the SetQuery case block of Database.Exec: failure of storage.Set
yields StatusErr wrapping a set query context, success yields
StatusOkNoData. -/
def Database.execSet (ctx : Context) (e : InMemoryEngine)
    (key value : Bytes) : ExecResult × InMemoryEngine :=
  match Storage.Set ctx e key value with
  | (Except.error se, e2) =>
    ({ status := ExecStatus.err, err := some (DBError.setQuery se) }, e2)
  | (Except.ok _, e2) => ({ status := ExecStatus.okNoData }, e2)

/-- Models the GetQuery case block of Database.Exec: the dedicated not-found
error yields StatusNotFound, any other error yields StatusErr wrapping a
get query context, success yields StatusOK carrying the bytes. -/
def Database.execGet (ctx : Context) (e : InMemoryEngine) (key : Bytes) :
    ExecResult × InMemoryEngine :=
  match Storage.Get ctx e key with
  | (Except.error se, e2) =>
    if se = StorageError.notFound then
      ({ status := ExecStatus.notFound }, e2)
    else
      ({ status := ExecStatus.err, err := some (DBError.getQuery se) }, e2)
  | (Except.ok v, e2) =>
    ({ status := ExecStatus.ok, data := some v }, e2)

/-- Models the DelQuery case block of Database.Exec: failure of storage.Del
yields StatusErr wrapping a del query context, success yields
StatusOkNoData. -/
def Database.execDel (ctx : Context) (e : InMemoryEngine) (key : Bytes) :
    ExecResult × InMemoryEngine :=
  match Storage.Del ctx e key with
  | (Except.error se, e2) =>
    ({ status := ExecStatus.err, err := some (DBError.delQuery se) }, e2)
  | (Except.ok _, e2) => ({ status := ExecStatus.okNoData }, e2)

/-- Models Database.Exec: pre-flight cancellation check, then parse, then
dispatch on the query variant.  The Go default branch returning
StatusUnsupported is unreachable here because Query is the closed union
produced by the parser. -/
def Database.Exec (c : Compute) (ctx : Context) (e : InMemoryEngine)
    (rawQuery : Bytes) : ExecResult × InMemoryEngine :=
  match ctx.err with
  | some ce =>
    ({ status := ExecStatus.err, err := some (DBError.ctx ce) }, e)
  | none =>
    match c.Parse rawQuery with
    | Except.error pe =>
      ({ status := ExecStatus.err, err := some (DBError.parseQuery pe) }, e)
    | Except.ok (Query.set k v) => Database.execSet ctx e k v
    | Except.ok (Query.get k) => Database.execGet ctx e k
    | Except.ok (Query.del k) => Database.execDel ctx e k

/-- Field/status consistency actually maintained by Exec: Ok carries data
and no error, Err carries an error and no data, OkNoData and NotFound carry
neither, and the Undefined and Unsupported statuses are never returned. -/
def resultFieldsConsistent (r : ExecResult) : Prop :=
  match r.status with
  | ExecStatus.ok => r.data.isSome = true ∧ r.err = none
  | ExecStatus.err => r.err.isSome = true ∧ r.data = none
  | ExecStatus.okNoData => r.data = none ∧ r.err = none
  | ExecStatus.notFound => r.data = none ∧ r.err = none
  | ExecStatus.undefined => False
  | ExecStatus.unsupported => False

/-- The raw bytes of the command line "SET foo bar". -/
def setFooBar : Bytes := [83, 69, 84, 32, 102, 111, 111, 32, 98, 97, 114]

/-! Helper lemmas about the field splitter and the parser. -/

/-- Every field emitted by the splitter worker is non-empty. -/
theorem ne_nil_of_mem_fieldsAux (l : Bytes) :
    ∀ (acc f : Bytes), f ∈ fieldsAux l acc → f ≠ [] := by
  induction l with
  | nil =>
    intro acc f hf
    by_cases h : acc = []
    · simp [fieldsAux, h] at hf
    · simp [fieldsAux, h] at hf
      subst hf
      simpa using h
  | cons b rest ih =>
    intro acc f hf
    rw [fieldsAux] at hf
    by_cases hsp : isSpace b
    · rw [if_pos hsp] at hf
      by_cases h : acc = []
      · rw [if_pos h] at hf
        exact ih [] f hf
      · rw [if_neg h] at hf
        rcases List.mem_cons.mp hf with h1 | h1
        · subst h1
          simpa using h
        · exact ih [] f h1
    · rw [if_neg hsp] at hf
      exact ih (b :: acc) f hf

/-- Every field produced by the splitter is non-empty. -/
theorem ne_nil_of_mem_fields {q f : Bytes} (hf : f ∈ fields q) : f ≠ [] :=
  ne_nil_of_mem_fieldsAux q [] f hf

/-- When parseFields succeeds, its result is exactly the whitespace split of
the input, and the field list is non-empty. -/
theorem parseFields_ok {c : Compute} {q : Bytes} {fs : List Bytes}
    (h : c.parseFields q = Except.ok fs) : fs = fields q ∧ fs ≠ [] := by
  by_cases h0 : q.length = 0
  · simp [Compute.parseFields, h0] at h
  · by_cases h1 : c.maxLen < q.length
    · simp [Compute.parseFields, h0, h1] at h
    · by_cases h2 : (fields q).length = 0
      · simp [Compute.parseFields, h0, h1, h2] at h
      · simp [Compute.parseFields, h0, h1, h2] at h
        subst h
        exact ⟨rfl, by simpa using h2⟩

/-- A run of spaces contributes no field beyond the pending accumulator. -/
theorem fieldsAux_replicate_space (n : Nat) :
    ∀ acc : Bytes, fieldsAux (List.replicate n 32) acc =
      if acc = [] then [] else [acc.reverse] := by
  induction n with
  | zero => intro acc; rfl
  | succ n ih =>
    intro acc
    rw [List.replicate_succ, fieldsAux]
    have hsp : isSpace 32 = true := by decide
    rw [if_pos hsp]
    by_cases h : acc = []
    · rw [if_pos h, ih, if_pos h, if_pos rfl]
    · rw [if_neg h, ih, if_pos rfl, if_neg h]

/-- When the fields are known, Parse is the command dispatch on them. -/
theorem Parse_eq_dispatch {c : Compute} {q : Bytes} {fs : List Bytes}
    (h : c.parseFields q = Except.ok fs) :
    c.Parse q =
      (if toUpper (fs.headD []) = upperCommandSet then
        if fs.length ≠ 3 then
          Except.error (ParseError.invalidArguments 3 fs.length)
        else
          Except.ok (Query.set (fs.getD 1 []) (fs.getD 2 []))
      else if toUpper (fs.headD []) = upperCommandGet then
        if fs.length ≠ 2 then
          Except.error (ParseError.invalidArguments 2 fs.length)
        else
          Except.ok (Query.get (fs.getD 1 []))
      else if toUpper (fs.headD []) = upperCommandDel then
        if fs.length ≠ 2 then
          Except.error (ParseError.invalidArguments 2 fs.length)
        else
          Except.ok (Query.del (fs.getD 1 []))
      else
        Except.error (ParseError.unknownCommand (fs.headD []))) := by
  simp only [Compute.Parse, h]

/-- The whitespace split of "SET foo bar" padded with trailing spaces. -/
theorem fields_setFooBar_pad (n : Nat) :
    fields (setFooBar ++ List.replicate n 32) =
      [[83, 69, 84], [102, 111, 111], [98, 97, 114]] := by
  show fieldsAux _ [] = _
  simp only [setFooBar, List.cons_append, List.nil_append]
  simp [fieldsAux, isSpace, fieldsAux_replicate_space]

/-! Theorems for the claims. -/

/-- C1: for every key K and value V, including empty byte sequences, engine
Set(K,V) followed by Get(K) returns (V, found=true) with V byte-for-byte the
last-written value, and Set(K,V1) then Set(K,V2) leaves Get(K) = V2. -/
theorem C1_engine_set_get_roundtrip :
    ∀ (e : InMemoryEngine) (k v v1 v2 : Bytes),
      ((e.Set k v).Get k).1 = some v ∧
      (((e.Set k v1).Set k v2).Get k).1 = some v2 := by
  intro e k v v1 v2
  constructor <;> simp [InMemoryEngine.Set, InMemoryEngine.Get]

/-- C3: with an already-cancelled or expired context, Exec returns status
Err carrying exactly that cancellation condition and the engine state is
returned completely unchanged, for every raw query. -/
theorem C3_cancelled_ctx_no_effect :
    ∀ (c : Compute) (ce : CtxError) (e : InMemoryEngine) (raw : Bytes),
      Database.Exec c ⟨some ce⟩ e raw =
        ({ status := ExecStatus.err, err := some (DBError.ctx ce) }, e) := by
  intro c ce e raw
  rfl

/-- C7: engine Del on an absent key leaves the state unchanged; after Del(K)
a Get(K) reports not-found; and Storage.Del under a live context never
returns an error, regardless of key absence. -/
theorem C7_del_idempotent :
    (∀ (e : InMemoryEngine) (k : Bytes), e.m k = none → e.Del k = e) ∧
    (∀ (e : InMemoryEngine) (k : Bytes), ((e.Del k).Get k).1 = none) ∧
    (∀ (ctx : Context) (e : InMemoryEngine) (k : Bytes), ctx.err = none →
      (Storage.Del ctx e k).1 = Except.ok ()) := by
  refine ⟨?_, ?_, ?_⟩
  · intro e k hk
    cases e with
    | mk m =>
      simp only [InMemoryEngine.Del, InMemoryEngine.mk.injEq]
      funext k2
      by_cases h : k2 = k
      · subst h
        simp at hk
        simp [hk]
      · simp [h]
  · intro e k
    simp [InMemoryEngine.Del, InMemoryEngine.Get]
  · intro ctx e k hctx
    cases ctx with
    | mk err =>
      simp at hctx
      subst hctx
      rfl

/-- C7 witness: the theorem applied at the empty engine, key "a", and a live
context. -/
theorem C7_del_idempotent_witness :
    newInMemoryEngine.Del [97] = newInMemoryEngine ∧
    (Storage.Del ⟨none⟩ newInMemoryEngine [97]).1 = Except.ok () :=
  ⟨C7_del_idempotent.1 newInMemoryEngine [97] rfl,
   C7_del_idempotent.2.2 ⟨none⟩ newInMemoryEngine [97] rfl⟩

/-- C9: for every raw input, Parse yields exactly one of a query or an
error: one of the two always exists and never both. -/
theorem C9_parse_exactly_one :
    ∀ (c : Compute) (q : Bytes),
      ((∃ qu, c.Parse q = Except.ok qu) ∨ (∃ e, c.Parse q = Except.error e)) ∧
      ¬ ((∃ qu, c.Parse q = Except.ok qu) ∧
         (∃ e, c.Parse q = Except.error e)) := by
  intro c q
  constructor
  · cases h : c.Parse q with
    | error e => exact Or.inr ⟨e, rfl⟩
    | ok qu => exact Or.inl ⟨qu, rfl⟩
  · rintro ⟨⟨qu, hok⟩, ⟨e, herr⟩⟩
    rw [hok] at herr
    exact Except.noConfusion herr

/-- C10: engine Set and Del on a key K1 leave the mapping at every other key
K2 unchanged, and engine Get returns the engine state unchanged. -/
theorem C10_engine_frame :
    (∀ (e : InMemoryEngine) (k1 k2 v : Bytes), k1 ≠ k2 →
      (e.Set k1 v).m k2 = e.m k2 ∧ (e.Del k1).m k2 = e.m k2) ∧
    (∀ (e : InMemoryEngine) (k : Bytes), (e.Get k).2 = e) := by
  constructor
  · intro e k1 k2 v hne
    have h : ¬ (k2 = k1) := fun h => hne h.symm
    constructor <;> simp [InMemoryEngine.Set, InMemoryEngine.Del, h]
  · intro e k
    rfl

/-- C2 counterexample: for the live context and the valid raw query
"SET a 1", Exec returns status OkNoData with Data and Err both nil, so it
does not populate exactly one of the two fields. -/
theorem C2_exactly_one_counterexample :
    (Database.Exec ⟨128⟩ ⟨none⟩ newInMemoryEngine
        [83, 69, 84, 32, 97, 32, 49]).1.data = none ∧
    (Database.Exec ⟨128⟩ ⟨none⟩ newInMemoryEngine
        [83, 69, 84, 32, 97, 32, 49]).1.err = none ∧
    ¬ (((Database.Exec ⟨128⟩ ⟨none⟩ newInMemoryEngine
          [83, 69, 84, 32, 97, 32, 49]).1.data ≠ none ∧
        (Database.Exec ⟨128⟩ ⟨none⟩ newInMemoryEngine
          [83, 69, 84, 32, 97, 32, 49]).1.err = none) ∨
       ((Database.Exec ⟨128⟩ ⟨none⟩ newInMemoryEngine
          [83, 69, 84, 32, 97, 32, 49]).1.data = none ∧
        (Database.Exec ⟨128⟩ ⟨none⟩ newInMemoryEngine
          [83, 69, 84, 32, 97, 32, 49]).1.err ≠ none)) := by
  refine ⟨rfl, rfl, ?_⟩
  rintro (⟨h1, _⟩ | ⟨_, h2⟩)
  · exact h1 rfl
  · exact h2 rfl

/-- C2 amended: the ExecResult returned by Exec populates at most one of
Data and Err, consistent with its Status: Ok carries data and no error, Err
carries an error and no data, OkNoData and NotFound carry neither field,
and Undefined and Unsupported are never returned. -/
theorem C2_exec_result_fields :
    ∀ (c : Compute) (ctx : Context) (e : InMemoryEngine) (raw : Bytes),
      resultFieldsConsistent (Database.Exec c ctx e raw).1 := by
  intro c ctx e raw
  cases hctx : ctx.err with
  | some ce => simp [Database.Exec, hctx, resultFieldsConsistent]
  | none =>
    cases hp : c.Parse raw with
    | error pe => simp [Database.Exec, hctx, hp, resultFieldsConsistent]
    | ok qu =>
      cases qu with
      | set k v =>
        simp [Database.Exec, hctx, hp, Database.execSet, Storage.Set,
          resultFieldsConsistent]
      | get k =>
        cases hm : e.m k with
        | none =>
          simp [Database.Exec, hctx, hp, Database.execGet, Storage.Get,
            InMemoryEngine.Get, hm, resultFieldsConsistent]
        | some v =>
          simp [Database.Exec, hctx, hp, Database.execGet, Storage.Get,
            InMemoryEngine.Get, hm, resultFieldsConsistent]
      | del k =>
        simp [Database.Exec, hctx, hp, Database.execDel, Storage.Del,
          resultFieldsConsistent]

/-- C4: under a live context, Storage.Get returns exactly the dedicated
not-found error when the engine reports the key absent, and the stored value
otherwise; and the GetQuery block of the dispatcher maps exactly the
not-found error to status NotFound with no data, any other storage error to
status Err wrapping a get query context, and success to status Ok carrying
the retrieved bytes. -/
theorem C4_get_notfound_mapping :
    (∀ (ctx : Context) (e : InMemoryEngine) (k : Bytes), ctx.err = none →
      ((Storage.Get ctx e k).1 = Except.error StorageError.notFound ↔
        e.m k = none) ∧
      (∀ v, (Storage.Get ctx e k).1 = Except.ok v ↔ e.m k = some v)) ∧
    (∀ (ctx : Context) (e : InMemoryEngine) (k : Bytes),
      ((Storage.Get ctx e k).1 = Except.error StorageError.notFound →
        Database.execGet ctx e k =
          ({ status := ExecStatus.notFound }, (Storage.Get ctx e k).2)) ∧
      (∀ se, se ≠ StorageError.notFound →
        (Storage.Get ctx e k).1 = Except.error se →
        Database.execGet ctx e k =
          ({ status := ExecStatus.err, err := some (DBError.getQuery se) },
           (Storage.Get ctx e k).2)) ∧
      (∀ v, (Storage.Get ctx e k).1 = Except.ok v →
        Database.execGet ctx e k =
          ({ status := ExecStatus.ok, data := some v },
           (Storage.Get ctx e k).2))) := by
  constructor
  · intro ctx e k hctx
    cases ctx with
    | mk cerr =>
      simp at hctx
      subst hctx
      constructor
      · cases hm : e.m k <;>
          simp [Storage.Get, InMemoryEngine.Get, hm]
      · intro v
        cases hm : e.m k <;>
          simp [Storage.Get, InMemoryEngine.Get, hm, eq_comm]
  · intro ctx e k
    cases hsg : Storage.Get ctx e k with
    | mk r e2 =>
      refine ⟨?_, ?_, ?_⟩
      · intro h1
        simp at h1
        subst h1
        simp [Database.execGet, hsg]
      · intro se hse h1
        simp at h1
        subst h1
        simp [Database.execGet, hsg, hse]
      · intro v h1
        simp at h1
        subst h1
        simp [Database.execGet, hsg]

/-- C4 witness: the theorem applied at key "a": absent key under a live
context, a cancelled context producing a non-not-found error, and a present
key storing "1". -/
theorem C4_get_notfound_mapping_witness :
    Database.execGet ⟨none⟩ newInMemoryEngine [97] =
      ({ status := ExecStatus.notFound },
       (Storage.Get ⟨none⟩ newInMemoryEngine [97]).2) ∧
    Database.execGet ⟨some CtxError.canceled⟩ newInMemoryEngine [97] =
      ({ status := ExecStatus.err,
         err := some (DBError.getQuery (StorageError.ctxErr
           CtxError.canceled)) },
       (Storage.Get ⟨some CtxError.canceled⟩ newInMemoryEngine [97]).2) ∧
    Database.execGet ⟨none⟩ (newInMemoryEngine.Set [97] [49]) [97] =
      ({ status := ExecStatus.ok, data := some [49] },
       (Storage.Get ⟨none⟩ (newInMemoryEngine.Set [97] [49]) [97]).2) ∧
    ((Storage.Get ⟨none⟩ newInMemoryEngine [97]).1 =
        Except.error StorageError.notFound ↔
      newInMemoryEngine.m [97] = none) :=
  ⟨(C4_get_notfound_mapping.2 ⟨none⟩ newInMemoryEngine [97]).1 rfl,
   (C4_get_notfound_mapping.2 ⟨some CtxError.canceled⟩ newInMemoryEngine
      [97]).2.1 (StorageError.ctxErr CtxError.canceled) (by decide) rfl,
   (C4_get_notfound_mapping.2 ⟨none⟩ (newInMemoryEngine.Set [97] [49])
      [97]).2.2 [49] rfl,
   (C4_get_notfound_mapping.1 ⟨none⟩ newInMemoryEngine [97] rfl).1⟩

/-- C10 witness: the theorem applied at the empty engine with the distinct
keys "a" and "b". -/
theorem C10_engine_frame_witness :
    (newInMemoryEngine.Set [97] [49]).m [98] = newInMemoryEngine.m [98] ∧
    (newInMemoryEngine.Del [97]).m [98] = newInMemoryEngine.m [98] :=
  C10_engine_frame.1 newInMemoryEngine [97] [98] [49] (by decide)

/-- C5: a raw command of length exactly the configured maximum parses when
otherwise valid (here "SET foo bar" padded with spaces up to the limit), and
every input of length maximum plus one is rejected with InvalidLength
regardless of content; the bound is checked on the raw byte length. -/
theorem C5_length_ceiling :
    (∀ maxLen : Nat, 11 ≤ maxLen →
      Compute.Parse ⟨maxLen⟩ (setFooBar ++ List.replicate (maxLen - 11) 32) =
        Except.ok (Query.set [102, 111, 111] [98, 97, 114]) ∧
      (setFooBar ++ List.replicate (maxLen - 11) 32).length = maxLen) ∧
    (∀ (maxLen : Nat) (q : Bytes), q.length = maxLen + 1 →
      Compute.Parse ⟨maxLen⟩ q =
        Except.error (ParseError.invalidLen maxLen (maxLen + 1))) := by
  constructor
  · intro maxLen hm
    have hlen :
        (setFooBar ++ List.replicate (maxLen - 11) 32).length = maxLen := by
      simp [setFooBar]
      omega
    have h0 :
        ¬ ((setFooBar ++ List.replicate (maxLen - 11) 32).length = 0) := by
      rw [hlen]
      omega
    have h1 :
        ¬ (maxLen < (setFooBar ++ List.replicate (maxLen - 11) 32).length) := by
      rw [hlen]
      omega
    have hm0 : ¬ (maxLen = 0) := by omega
    have hmm : ¬ (maxLen < maxLen) := by omega
    have hpf : Compute.parseFields ⟨maxLen⟩
        (setFooBar ++ List.replicate (maxLen - 11) 32) =
        Except.ok [[83, 69, 84], [102, 111, 111], [98, 97, 114]] := by
      simp only [Compute.parseFields, hlen, fields_setFooBar_pad]
      rw [if_neg hm0, if_neg hmm,
        if_neg (by decide :
          ¬ (([[83, 69, 84], [102, 111, 111], [98, 97, 114]] :
              List Bytes).length = 0))]
    refine ⟨?_, hlen⟩
    rw [Parse_eq_dispatch hpf]
    rfl
  · intro maxLen q hq
    have h0 : ¬ (q.length = 0) := by omega
    have h1 : maxLen < q.length := by omega
    simp [Compute.Parse, Compute.parseFields, h0, h1, hq]

/-- C5 witness: the theorem applied at maximum length 11 with the unpadded
"SET foo bar", and at a 12-byte input of xes against maximum 11. -/
theorem C5_length_ceiling_witness :
    (Compute.Parse ⟨11⟩ (setFooBar ++ List.replicate (11 - 11) 32) =
        Except.ok (Query.set [102, 111, 111] [98, 97, 114]) ∧
      (setFooBar ++ List.replicate (11 - 11) 32).length = 11) ∧
    Compute.Parse ⟨11⟩ (List.replicate 12 120) =
      Except.error (ParseError.invalidLen 11 12) :=
  ⟨C5_length_ceiling.1 11 (by decide),
   C5_length_ceiling.2 11 (List.replicate 12 120) (by decide)⟩

/-- C6: when the upper-cased first field is SET, Parse demands exactly 3
fields and otherwise reports InvalidArguments with the expected and actual
counts; when it is GET or DEL, exactly 2 fields; on success the key (and
value for SET) are the split fields verbatim. -/
theorem C6_field_count_enforcement :
    ∀ (c : Compute) (q : Bytes) (fs : List Bytes),
      c.parseFields q = Except.ok fs →
      ((toUpper (fs.headD []) = upperCommandSet →
        (fs.length = 3 →
          c.Parse q = Except.ok (Query.set (fs.getD 1 []) (fs.getD 2 []))) ∧
        (fs.length ≠ 3 →
          c.Parse q =
            Except.error (ParseError.invalidArguments 3 fs.length))) ∧
       (toUpper (fs.headD []) = upperCommandGet →
        (fs.length = 2 →
          c.Parse q = Except.ok (Query.get (fs.getD 1 []))) ∧
        (fs.length ≠ 2 →
          c.Parse q =
            Except.error (ParseError.invalidArguments 2 fs.length))) ∧
       (toUpper (fs.headD []) = upperCommandDel →
        (fs.length = 2 →
          c.Parse q = Except.ok (Query.del (fs.getD 1 []))) ∧
        (fs.length ≠ 2 →
          c.Parse q =
            Except.error (ParseError.invalidArguments 2 fs.length)))) := by
  intro c q fs h
  rw [Parse_eq_dispatch h]
  refine ⟨fun hS => ⟨fun h3 => ?_, fun h3 => ?_⟩,
          fun hG => ⟨fun h2 => ?_, fun h2 => ?_⟩,
          fun hD => ⟨fun h2 => ?_, fun h2 => ?_⟩⟩
  · rw [hS]
    simp [h3]
  · rw [hS]
    simp [h3]
  · rw [hG]
    simp [h2, upperCommandSet, upperCommandGet]
  · rw [hG]
    simp [h2, upperCommandSet, upperCommandGet]
  · rw [hD]
    simp [h2, upperCommandSet, upperCommandGet, upperCommandDel]
  · rw [hD]
    simp [h2, upperCommandSet, upperCommandGet, upperCommandDel]

/-- C6 witness: the theorem applied to "SET foo" (wrong count, expected 3
got 2) and to "GET foo" (success with the key verbatim). -/
theorem C6_field_count_enforcement_witness :
    Compute.Parse ⟨100⟩ [83, 69, 84, 32, 102, 111, 111] =
      Except.error (ParseError.invalidArguments 3 2) ∧
    Compute.Parse ⟨100⟩ [71, 69, 84, 32, 102, 111, 111] =
      Except.ok (Query.get [102, 111, 111]) :=
  ⟨((C6_field_count_enforcement ⟨100⟩ [83, 69, 84, 32, 102, 111, 111]
      [[83, 69, 84], [102, 111, 111]] rfl).1 rfl).2 (by decide),
   ((C6_field_count_enforcement ⟨100⟩ [71, 69, 84, 32, 102, 111, 111]
      [[71, 69, 84], [102, 111, 111]] rfl).2.1 rfl).1 rfl⟩

/-- C8: whitespace splitting never produces an empty field, and every query
Parse returns has a non-empty key, and for Set also a non-empty value. -/
theorem C8_parsed_query_nonempty :
    (∀ (q f : Bytes), f ∈ fields q → f ≠ []) ∧
    (∀ (c : Compute) (q : Bytes) (qu : Query), c.Parse q = Except.ok qu →
      (match qu with
       | Query.set k v => k ≠ [] ∧ v ≠ []
       | Query.get k => k ≠ []
       | Query.del k => k ≠ [])) := by
  constructor
  · intro q f hf
    exact ne_nil_of_mem_fields hf
  · intro c q qu hp
    cases hpf : c.parseFields q with
    | error e =>
      simp only [Compute.Parse, hpf] at hp
      exact Except.noConfusion hp
    | ok fs =>
      obtain ⟨hfs, _⟩ := parseFields_ok hpf
      rw [Parse_eq_dispatch hpf] at hp
      by_cases hS : toUpper (fs.headD []) = upperCommandSet
      · rw [if_pos hS] at hp
        by_cases h3 : fs.length = 3
        · rw [if_neg (by simp [h3])] at hp
          obtain ⟨a, b, c3, rfl⟩ := List.length_eq_three.mp h3
          injection hp with h
          subst h
          show ([a, b, c3] : List Bytes).getD 1 [] ≠ [] ∧
            ([a, b, c3] : List Bytes).getD 2 [] ≠ []
          refine ⟨?_, ?_⟩
          · exact ne_nil_of_mem_fields (hfs ▸ (by simp : b ∈ [a, b, c3]))
          · exact ne_nil_of_mem_fields (hfs ▸ (by simp : c3 ∈ [a, b, c3]))
        · rw [if_pos h3] at hp
          exact Except.noConfusion hp
      · rw [if_neg hS] at hp
        by_cases hG : toUpper (fs.headD []) = upperCommandGet
        · rw [if_pos hG] at hp
          by_cases h2 : fs.length = 2
          · rw [if_neg (by simp [h2])] at hp
            obtain ⟨a, b, rfl⟩ := List.length_eq_two.mp h2
            injection hp with h
            subst h
            show ([a, b] : List Bytes).getD 1 [] ≠ []
            exact ne_nil_of_mem_fields (hfs ▸ (by simp : b ∈ [a, b]))
          · rw [if_pos h2] at hp
            exact Except.noConfusion hp
        · rw [if_neg hG] at hp
          by_cases hD : toUpper (fs.headD []) = upperCommandDel
          · rw [if_pos hD] at hp
            by_cases h2 : fs.length = 2
            · rw [if_neg (by simp [h2])] at hp
              obtain ⟨a, b, rfl⟩ := List.length_eq_two.mp h2
              injection hp with h
              subst h
              show ([a, b] : List Bytes).getD 1 [] ≠ []
              exact ne_nil_of_mem_fields (hfs ▸ (by simp : b ∈ [a, b]))
            · rw [if_pos h2] at hp
              exact Except.noConfusion hp
          · rw [if_neg hD] at hp
            exact Except.noConfusion hp

/-- C8 witness: the theorem applied to the field "foo" of the split of
" foo", and to the key of the parsed query "GET b". -/
theorem C8_parsed_query_nonempty_witness :
    ([102, 111, 111] : Bytes) ≠ [] ∧ ([98] : Bytes) ≠ [] :=
  ⟨C8_parsed_query_nonempty.1 [32, 102, 111, 111] [102, 111, 111]
     (by decide),
   C8_parsed_query_nonempty.2 ⟨100⟩ [71, 69, 84, 32, 98] (Query.get [98])
     rfl⟩

/-- C9 witness: the theorem applied to the raw query "GET foo" with maximum
length 100. -/
theorem C9_parse_exactly_one_witness :
    ((∃ qu, Compute.Parse ⟨100⟩ [71, 69, 84, 32, 102, 111, 111] =
        Except.ok qu) ∨
     (∃ e, Compute.Parse ⟨100⟩ [71, 69, 84, 32, 102, 111, 111] =
        Except.error e)) ∧
    ¬ ((∃ qu, Compute.Parse ⟨100⟩ [71, 69, 84, 32, 102, 111, 111] =
         Except.ok qu) ∧
       (∃ e, Compute.Parse ⟨100⟩ [71, 69, 84, 32, 102, 111, 111] =
         Except.error e)) :=
  C9_parse_exactly_one ⟨100⟩ [71, 69, 84, 32, 102, 111, 111]

end ConcurrencyGo
